import Mathlib

/-!
Verification of the block-searcher repository (`src/utils/block-fetcher.ts`,
`src/routes/api.ts`) against its natural-language specification.

The code is shallowly embedded: JS numbers that hold block indices,
slots and timestamps are modelled as `Int`; remote point sources
(`getBlockTimestamp`, `getSlotTime`, ...) are modelled as pure oracles
`Int → Int` (total) or `Int → Option Int` (`none` = the RPC reported no
record, i.e. the JS code throws); thrown JS errors are `Except String`
values carrying the error message; the mutable caches are explicit state
threaded through the functions.  Loops are translated to structurally
recursive functions on an explicit fuel argument that mirrors the
source's loop bound, so every definition evaluates by kernel reduction.
-/

/-- `Number.MAX_SAFE_INTEGER`, the initial value of
`closestTimeDifference` in both binary searches (block-fetcher.ts:108,187). -/
def maxSafeInt : Int := 9007199254740991

/-- Loop body of `retry` (block-fetcher.ts:20-35), recursing on the number
of remaining attempts (`fuel = retries - attempt`, so `fuel = 0` is the
loop exit `attempt < retries` failing, and `fuel = 1` is the last attempt,
where `attempt >= retries - 1` holds and a failure is rethrown wrapped as
`Max retries reached: ...`).  The operation is stateful (`σ → result × σ`)
so that call counts and cache contents can be observed; `String error`
of a JS `Error` object prefixes `Error: ` to its message, hence the wrap
is `"Max retries reached: Error: " ++ e`.  The `delay` between attempts
has no observable effect in this embedding and is dropped. -/
def retryAux {σ α : Type} (op : σ → Except String α × σ) : Nat → σ → Except String α × σ
  | 0, s => (.error "Max retries reached without success.", s)
  | fuel + 1, s =>
    match op s with
    | (.ok v, s') => (.ok v, s')
    | (.error e, s') =>
      match fuel with
      | 0 => (.error ("Max retries reached: Error: " ++ e), s')
      | _ + 1 => retryAux op fuel s'

/-- `retry(fn, retries, delayMs)` (block-fetcher.ts:20-35).  `retries` is
an `Int` as in JS; the `for` loop runs `max retries 0` times. -/
def retry {σ α : Type} (op : σ → Except String α × σ) (retries : Int) (s : σ) :
    Except String α × σ :=
  retryAux op retries.toNat s

/-- An operation that fails on its first `k` invocations (with message
`msg i` on invocation `i`) and then always succeeds with `v`.  The state
is the number of invocations made so far. -/
def countingOp (k : Nat) (msg : Nat → String) (v : Int) : Nat → Except String Int × Nat :=
  fun calls => (if calls < k then .error (msg calls) else .ok v, calls + 1)

lemma retryAux_counting_ok (k : Nat) (msg : Nat → String) (v : Int) :
    ∀ fuel calls, calls ≤ k → k < calls + fuel →
    retryAux (countingOp k msg v) fuel calls = (.ok v, k + 1) := by
  intro fuel
  induction fuel with
  | zero => intro calls h1 h2; omega
  | succ f ih =>
    intro calls h1 h2
    rw [retryAux]
    by_cases hlt : calls < k
    · have hop : countingOp k msg v calls = (.error (msg calls), calls + 1) := by
        simp [countingOp, hlt]
      rw [hop]
      have hf : ∃ f', f = f' + 1 := by
        rcases Nat.eq_zero_or_pos f with h | h
        · omega
        · exact ⟨f - 1, by omega⟩
      obtain ⟨f', rfl⟩ := hf
      exact ih (calls + 1) (by omega) (by omega)
    · have hk : calls = k := by omega
      have hop : countingOp k msg v calls = (.ok v, calls + 1) := by
        simp [countingOp, hlt]
      rw [hop, hk]

lemma retryAux_counting_fail (k : Nat) (msg : Nat → String) (v : Int) :
    ∀ fuel calls, 1 ≤ fuel → calls + fuel ≤ k →
    retryAux (countingOp k msg v) fuel calls =
      (.error ("Max retries reached: Error: " ++ msg (calls + fuel - 1)), calls + fuel) := by
  intro fuel
  induction fuel with
  | zero => intro calls h1 h2; omega
  | succ f ih =>
    intro calls h1 h2
    rw [retryAux]
    have hlt : calls < k := by omega
    have hop : countingOp k msg v calls = (.error (msg calls), calls + 1) := by
      simp [countingOp, hlt]
    rw [hop]
    match f, ih with
    | 0, _ =>
      show (Except.error ("Max retries reached: Error: " ++ msg calls), calls + 1) =
        (Except.error ("Max retries reached: Error: " ++ msg (calls + 1 - 1)), calls + 1)
      rw [show calls + 1 - 1 = calls from by omega]
    | f' + 1, ih =>
      show retryAux (countingOp k msg v) (f' + 1) (calls + 1) =
        (Except.error ("Max retries reached: Error: " ++ msg (calls + (f' + 1 + 1) - 1)),
          calls + (f' + 1 + 1))
      have heq := ih (calls + 1) (by omega) (by omega)
      rw [heq, show calls + 1 + (f' + 1) - 1 = calls + (f' + 1 + 1) - 1 from by omega,
        show calls + 1 + (f' + 1) = calls + (f' + 1 + 1) from by omega]

/-- Claim C4: for an operation that fails exactly `k` times and then
succeeds, `retry(op, n, d)` succeeds after exactly `k+1` invocations iff
`k < n`; for `k ≥ n ≥ 1` it fails after exactly `n` invocations with an
error wrapping the description of the last underlying error (the one
raised on invocation `n-1`); for `n = 0` it fails with the generic
message after zero invocations. -/
theorem retry_fail_k_then_succeed (k n : Nat) (msg : Nat → String) (v : Int) :
    (k < n → retry (countingOp k msg v) (n : Int) 0 = (.ok v, k + 1)) ∧
    (n ≤ k → 1 ≤ n → retry (countingOp k msg v) (n : Int) 0 =
      (.error ("Max retries reached: Error: " ++ msg (n - 1)), n)) ∧
    (n = 0 → retry (countingOp k msg v) (n : Int) 0 =
      (.error "Max retries reached without success.", 0)) := by
  refine ⟨?_, ?_, ?_⟩
  · intro h
    unfold retry
    rw [show ((n : Int)).toNat = n from by omega]
    exact retryAux_counting_ok k msg v n 0 (by omega) (by omega)
  · intro h1 h2
    unfold retry
    rw [show ((n : Int)).toNat = n from by omega]
    have := retryAux_counting_fail k msg v n 0 (by omega) (by omega)
    simpa using this
  · intro h
    subst h
    unfold retry
    rfl

/-- Witness for C4 at `k = 1, n = 3` (success after 2 calls) and
`k = 3, n = 2` (failure after 2 calls, wrapping the second error). -/
theorem retry_fail_k_then_succeed_witness :
    retry (countingOp 1 (fun _ => "boom") 42) (3 : Int) 0 = (.ok 42, 2) ∧
    retry (countingOp 3 (fun i => toString i) 42) (2 : Int) 0 =
      (.error ("Max retries reached: Error: " ++ toString 1), 2) := by
  constructor
  · exact (retry_fail_k_then_succeed 1 3 (fun _ => "boom") 42).1 (by omega)
  · exact (retry_fail_k_then_succeed 3 2 (fun i => toString i) 42).2.1 (by omega) (by omega)

/-- Claim C10: `retry(fn, r, d)` with `r ≤ 0` never invokes the operation
(the result and final state are those of the untouched input state, for
every operation) and fails with exactly the message
`"Max retries reached without success."`. -/
theorem retry_zero_attempts {σ α : Type} (op : σ → Except String α × σ) (r : Int) (s : σ)
    (h : r ≤ 0) : retry op r s = (.error "Max retries reached without success.", s) := by
  unfold retry
  rw [show r.toNat = 0 from by omega]
  rfl

/-- Witness for C10: zero retries on a counting operation makes no calls. -/
theorem retry_zero_attempts_witness :
    retry (countingOp 5 (fun _ => "x") 1) (0 : Int) 0 =
      (.error "Max retries reached without success.", 0) :=
  retry_zero_attempts (countingOp 5 (fun _ => "x") 1) 0 0 (by omega)

/-- Lookup in a cache `Record<number, T>` modelled as an association
list where the most recent write is at the head. -/
def cacheLookup (c : List (Int × Int)) (k : Int) : Option Int :=
  (c.find? (fun e => e.1 == k)).map (fun e => e.2)

/-- One attempt of the closure passed to `retry` by `getCachedData`
(block-fetcher.ts:54-59): return the cached value if the key is present,
otherwise invoke the fetch function, store its result on success, and
return it.  The state is the cache paired with a log of the keys for
which the fetch function was invoked (one entry per invocation); `fetch`
is the pure outcome of `fetchFunc()` for this key. -/
def cachedOp (fetch : Except String Int) (key : Int) :
    List (Int × Int) × List Int → Except String Int × (List (Int × Int) × List Int) :=
  fun s =>
    match cacheLookup s.1 key with
    | some v => (.ok v, s)
    | none =>
      match fetch with
      | .ok d => (.ok d, ((key, d) :: s.1, s.2 ++ [key]))
      | .error e => (.error e, (s.1, s.2 ++ [key]))

/-- `getCachedData(cache, key, fetchFunc)` (block-fetcher.ts:49-60): the
closure above run through `retry` with the default budget of 3 attempts. -/
def getCachedData (fetch : Except String Int) (key : Int)
    (s : List (Int × Int) × List Int) : Except String Int × (List (Int × Int) × List Int) :=
  retry (cachedOp fetch key) 3 s

/-- A sequential access pattern: a list of keys looked up one after the
other through `getCachedData`, threading the cache (and fetch log);
`fetchFor k` is the pure outcome of the fetch function for key `k`. -/
def runSeq (fetchFor : Int → Except String Int) : List Int → List (Int × Int) × List Int →
    List (Int × Int) × List Int
  | [], s => s
  | k :: ks, s => runSeq fetchFor ks (getCachedData (fetchFor k) k s).2

lemma getCachedData_hit (fetch : Except String Int) (key : Int) (c : List (Int × Int))
    (log : List Int) (v : Int) (h : cacheLookup c key = some v) :
    getCachedData fetch key (c, log) = (.ok v, (c, log)) := by
  unfold getCachedData retry
  rw [show ((3 : Int)).toNat = 3 from rfl, retryAux]
  have : cachedOp fetch key (c, log) = (.ok v, (c, log)) := by
    unfold cachedOp
    rw [h]
  rw [this]

lemma getCachedData_miss_ok (d : Int) (key : Int) (c : List (Int × Int))
    (log : List Int) (h : cacheLookup c key = none) :
    getCachedData (.ok d) key (c, log) = (.ok d, ((key, d) :: c, log ++ [key])) := by
  unfold getCachedData retry
  rw [show ((3 : Int)).toNat = 3 from rfl, retryAux]
  have : cachedOp (.ok d) key (c, log) = (.ok d, ((key, d) :: c, log ++ [key])) := by
    unfold cachedOp
    rw [h]
  rw [this]

lemma cacheLookup_cons_ne (c : List (Int × Int)) (k k' d : Int) (h : k' ≠ k) :
    cacheLookup ((k', d) :: c) k = cacheLookup c k := by
  unfold cacheLookup
  rw [List.find?]
  rw [show ((k', d).1 == k) = false from by simp [h]]

lemma cacheLookup_cons_self (c : List (Int × Int)) (k d : Int) :
    cacheLookup ((k, d) :: c) k = some d := by
  unfold cacheLookup
  rw [List.find?]
  simp

/-- After a step on key `k'`, with an all-succeeding fetch, a key already
cached keeps its value and is never fetched again. -/
lemma runSeq_preserves (g : Int → Int) (k : Int) :
    ∀ (keys : List Int) (c : List (Int × Int)) (log : List Int) (v : Int),
    cacheLookup c k = some v →
    cacheLookup (runSeq (fun j => .ok (g j)) keys (c, log)).1 k = some v ∧
    (runSeq (fun j => .ok (g j)) keys (c, log)).2.count k = log.count k := by
  intro keys
  induction keys with
  | nil => intro c log v h; exact ⟨h, rfl⟩
  | cons k' ks ih =>
    intro c log v h
    rw [runSeq]
    rcases hc : cacheLookup c k' with _ | w
    · -- miss on k': fetch succeeds, insert (k', g k'), log k'
      rw [getCachedData_miss_ok (g k') k' c log hc]
      have hne : k' ≠ k := by
        intro he; rw [he, h] at hc; exact Option.noConfusion hc
      have h2 : cacheLookup ((k', g k') :: c) k = some v := by
        rw [cacheLookup_cons_ne c k k' (g k') hne]; exact h
      have := ih ((k', g k') :: c) (log ++ [k']) v h2
      refine ⟨this.1, ?_⟩
      rw [this.2, List.count_append]
      simp [List.count_singleton, hne]
    · -- hit on k': state unchanged
      rw [getCachedData_hit (.ok (g k')) k' c log w hc]
      exact ih c log v h

/-- With an all-succeeding fetch, the number of fetches of key `k` during
a run is at most one more than already logged, and exactly what is logged
when `k` is already cached. -/
lemma runSeq_count_le (g : Int → Int) (k : Int) :
    ∀ (keys : List Int) (c : List (Int × Int)) (log : List Int),
    (runSeq (fun j => .ok (g j)) keys (c, log)).2.count k ≤
      log.count k + (if (cacheLookup c k).isSome then 0 else 1) := by
  intro keys
  induction keys with
  | nil =>
    intro c log
    rw [runSeq]
    show log.count k ≤ log.count k + (if (cacheLookup c k).isSome then 0 else 1)
    split <;> omega
  | cons k' ks ih =>
    intro c log
    rw [runSeq]
    rcases hc : cacheLookup c k' with _ | w
    · rw [getCachedData_miss_ok (g k') k' c log hc]
      by_cases hk : k' = k
      · subst hk
        have hcache : cacheLookup ((k', g k') :: c) k' = some (g k') :=
          cacheLookup_cons_self c k' (g k')
        have := (runSeq_preserves g k' ks ((k', g k') :: c) (log ++ [k']) (g k') hcache).2
        rw [this, List.count_append]
        rw [hc]
        simp [List.count_singleton]
      · have := ih ((k', g k') :: c) (log ++ [k'])
        rw [cacheLookup_cons_ne c k k' (g k') hk] at this
        calc (runSeq (fun j => .ok (g j)) ks ((k', g k') :: c, log ++ [k'])).2.count k
            ≤ (log ++ [k']).count k + (if (cacheLookup c k).isSome then 0 else 1) := this
          _ = log.count k + (if (cacheLookup c k).isSome then 0 else 1) := by
              rw [List.count_append]
              simp [List.count_singleton, hk]
    · rw [getCachedData_hit (.ok (g k')) k' c log w hc]
      exact ih c log

/-- Claim C6: with a fetch function that succeeds, `getCachedData` invokes
the fetch at most once per distinct key over any sequential access
pattern; a lookup of a key already in the cache returns the cached value
with no fetch invocation and leaves the state untouched; and a key
present in the cache keeps its value across the whole run. -/
theorem getCachedData_at_most_once (g : Int → Int) (keys : List Int)
    (c0 : List (Int × Int)) (k : Int) :
    ((runSeq (fun j => .ok (g j)) keys (c0, [])).2.count k ≤ 1) ∧
    (∀ (v : Int) (c : List (Int × Int)) (log : List Int) (fetch : Except String Int),
      cacheLookup c k = some v → getCachedData fetch k (c, log) = (.ok v, (c, log))) ∧
    (∀ v : Int, cacheLookup c0 k = some v →
      cacheLookup (runSeq (fun j => .ok (g j)) keys (c0, [])).1 k = some v) := by
  refine ⟨?_, ?_, ?_⟩
  · have := runSeq_count_le g k keys c0 []
    simp only [List.count_nil] at this
    calc (runSeq (fun j => .ok (g j)) keys (c0, [])).2.count k
        ≤ 0 + (if (cacheLookup c0 k).isSome then 0 else 1) := this
      _ ≤ 1 := by split <;> omega
  · intro v c log fetch h
    exact getCachedData_hit fetch k c log v h
  · intro v h
    exact (runSeq_preserves g k keys c0 [] v h).1

/-- Witness for C6: key 7 cached with value 3; pattern `[7, 7]`. -/
theorem getCachedData_at_most_once_witness :
    ((runSeq (fun j => .ok ((fun _ => (3 : Int)) j)) [7, 7] ([(7, 3)], [])).2.count 7 ≤ 1) ∧
    getCachedData (.error "down") 7 ([(7, 3)], []) = (.ok 3, ([(7, 3)], [])) ∧
    cacheLookup (runSeq (fun j => .ok ((fun _ => (3 : Int)) j)) [7, 7] ([(7, 3)], [])).1 7 =
      some 3 := by
  have h := getCachedData_at_most_once (fun _ => (3 : Int)) [7, 7] [(7, 3)] 7
  exact ⟨h.1, h.2.1 3 [(7, 3)] [] (.error "down") rfl, h.2.2 3 rfl⟩

/-- The binary-search loop of `getEVMBlockByTimestamp`
(block-fetcher.ts:110-129), over a pure oracle `ts` for
`getBlockTimestamp`.  The fuel argument bounds the number of iterations
(the window `[lo, hi]` strictly shrinks, so any fuel larger than the
initial window size is enough; `none` means fuel ran out).  Alongside the
code's return value the function returns the list of block numbers probed
during the search, in probe order, so that the tie-break "first probed
wins" is observable.  `(lo + hi) / 2` is `Math.floor((startBlock +
endBlock) / 2)` (both arguments are nonnegative whenever the search is
started on `0 ≤ lo`). -/
def evmGoT (ts : Int → Int) (target : Int) : Nat → Int → Int → Int → Int → Option (Int × List Int)
  | 0, _, _, _, _ => none
  | fuel + 1, lo, hi, closest, cdiff =>
    if lo ≤ hi then
      let mid := (lo + hi) / 2
      let t := ts mid
      let d := |t - target|
      let c' := if d < cdiff then mid else closest
      let d' := if d < cdiff then d else cdiff
      if t = target then some (mid, [mid])
      else if t < target then
        (evmGoT ts target fuel (mid + 1) hi c' d').map (fun rp => (rp.1, mid :: rp.2))
      else
        (evmGoT ts target fuel lo (mid - 1) c' d').map (fun rp => (rp.1, mid :: rp.2))
    else some (closest, [])

/-- `getEVMBlockByTimestamp(timestamp)` (block-fetcher.ts:101-130) for a
chain whose latest block is `latest` and whose block timestamps are given
by `ts`: binary search over `[0, latest]` starting from `closestBlock =
0`, `closestTimeDifference = MAX_SAFE_INTEGER`, with enough fuel for the
whole search.  The probe trace is discarded. -/
def getEVMBlockByTimestamp (ts : Int → Int) (latest target : Int) : Option Int :=
  (evmGoT ts target (latest + 2).toNat 0 latest 0 maxSafeInt).map (fun rp => rp.1)

lemma evmGoT_exit (ts : Int → Int) (target : Int) (f : Nat) (lo hi closest cdiff : Int)
    (h : ¬ lo ≤ hi) :
    evmGoT ts target (f + 1) lo hi closest cdiff = some (closest, []) := by
  rw [evmGoT]
  simp [h]

lemma evmGoT_eq_case (ts : Int → Int) (target : Int) (f : Nat) (lo hi closest cdiff : Int)
    (hle : lo ≤ hi) (heq : ts ((lo + hi) / 2) = target) :
    evmGoT ts target (f + 1) lo hi closest cdiff =
      some ((lo + hi) / 2, [(lo + hi) / 2]) := by
  rw [evmGoT]
  simp [hle, heq]

lemma evmGoT_lt_case (ts : Int → Int) (target : Int) (f : Nat) (lo hi closest cdiff : Int)
    (hle : lo ≤ hi) (hlt : ts ((lo + hi) / 2) < target) :
    evmGoT ts target (f + 1) lo hi closest cdiff =
      (evmGoT ts target f ((lo + hi) / 2 + 1) hi
        (if |ts ((lo + hi) / 2) - target| < cdiff then (lo + hi) / 2 else closest)
        (if |ts ((lo + hi) / 2) - target| < cdiff then |ts ((lo + hi) / 2) - target| else cdiff)).map
        (fun rp => (rp.1, (lo + hi) / 2 :: rp.2)) := by
  rw [evmGoT]
  simp [hle, hlt, hlt.ne]

lemma evmGoT_gt_case (ts : Int → Int) (target : Int) (f : Nat) (lo hi closest cdiff : Int)
    (hle : lo ≤ hi) (hgt : target < ts ((lo + hi) / 2)) :
    evmGoT ts target (f + 1) lo hi closest cdiff =
      (evmGoT ts target f lo ((lo + hi) / 2 - 1)
        (if |ts ((lo + hi) / 2) - target| < cdiff then (lo + hi) / 2 else closest)
        (if |ts ((lo + hi) / 2) - target| < cdiff then |ts ((lo + hi) / 2) - target| else cdiff)).map
        (fun rp => (rp.1, (lo + hi) / 2 :: rp.2)) := by
  rw [evmGoT]
  simp [hle, hgt.ne', not_lt_of_gt hgt]

/-- The search always terminates: the window strictly shrinks each
iteration, so any fuel exceeding the window size yields a result. -/
lemma evmGoT_total (ts : Int → Int) (target : Int) :
    ∀ (fuel : Nat) (lo hi closest cdiff : Int), (hi + 1 - lo).toNat < fuel →
    ∃ out, evmGoT ts target fuel lo hi closest cdiff = some out := by
  intro fuel
  induction fuel with
  | zero => intro lo hi closest cdiff h; omega
  | succ f ih =>
    intro lo hi closest cdiff hfuel
    by_cases hle : lo ≤ hi
    · have hm1 : lo ≤ (lo + hi) / 2 := by omega
      have hm2 : (lo + hi) / 2 ≤ hi := by omega
      rcases lt_trichotomy (ts ((lo + hi) / 2)) target with hc | hc | hc
      · rw [evmGoT_lt_case ts target f lo hi closest cdiff hle hc]
        obtain ⟨out, hout⟩ := ih ((lo + hi) / 2 + 1) hi
          (if |ts ((lo + hi) / 2) - target| < cdiff then (lo + hi) / 2 else closest)
          (if |ts ((lo + hi) / 2) - target| < cdiff then |ts ((lo + hi) / 2) - target| else cdiff)
          (by omega)
        rw [hout]
        exact ⟨_, rfl⟩
      · rw [evmGoT_eq_case ts target f lo hi closest cdiff hle hc]
        exact ⟨_, rfl⟩
      · rw [evmGoT_gt_case ts target f lo hi closest cdiff hle hc]
        obtain ⟨out, hout⟩ := ih lo ((lo + hi) / 2 - 1)
          (if |ts ((lo + hi) / 2) - target| < cdiff then (lo + hi) / 2 else closest)
          (if |ts ((lo + hi) / 2) - target| < cdiff then |ts ((lo + hi) / 2) - target| else cdiff)
          (by omega)
        rw [hout]
        exact ⟨_, rfl⟩
    · rw [evmGoT_exit ts target f lo hi closest cdiff hle]
      exact ⟨_, rfl⟩

/-- Invariant-carrying correctness of the binary-search loop. -/
lemma evmGoT_correct (ts : Int → Int) (target N : Int)
    (hmono : ∀ i j : Int, 0 ≤ i → i < j → j ≤ N → ts i < ts j)
    (hbdd : ∀ j : Int, 0 ≤ j → j ≤ N → |ts j - target| < maxSafeInt) :
    ∀ (fuel : Nat) (lo hi closest cdiff : Int) (P : List Int),
    (hi + 1 - lo).toNat < fuel →
    0 ≤ lo → hi ≤ N → lo ≤ hi + 1 →
    (∀ j : Int, 0 ≤ j → j < lo → ts j < target) →
    (∀ j : Int, hi < j → j ≤ N → target < ts j) →
    (∀ p ∈ P, (0 ≤ p ∧ p ≤ N) ∧ ts p ≠ target ∧ cdiff ≤ |ts p - target|) →
    ((P = [] ∧ closest = 0 ∧ cdiff = maxSafeInt) ∨
      (∃ l₁ l₂, P = l₁ ++ closest :: l₂ ∧ cdiff = |ts closest - target| ∧
        ∀ p ∈ l₁, |ts closest - target| < |ts p - target|)) →
    (lo ≤ hi ∨ P ≠ []) →
    (0 < lo → (lo - 1) ∈ P) →
    (hi < N → (hi + 1) ∈ P) →
    ∃ r ps, evmGoT ts target fuel lo hi closest cdiff = some (r, ps) ∧
      0 ≤ r ∧ r ≤ N ∧
      (∀ j : Int, 0 ≤ j → j ≤ N → |ts r - target| ≤ |ts j - target|) ∧
      (∃ l₁ l₂, P ++ ps = l₁ ++ r :: l₂ ∧ ∀ p ∈ l₁, |ts r - target| < |ts p - target|) := by
  intro fuel
  induction fuel with
  | zero => intro lo hi closest cdiff P hfuel; omega
  | succ f ih =>
    intro lo hi closest cdiff P hfuel hlo hhiN hwin hleft hright hPmem hclosest hne hlinkL hlinkR
    by_cases hle : lo ≤ hi
    · -- loop iteration
      have hm1 : lo ≤ (lo + hi) / 2 := by omega
      have hm2 : (lo + hi) / 2 ≤ hi := by omega
      set m : Int := (lo + hi) / 2 with hm
      have hm0 : 0 ≤ m := le_trans hlo hm1
      have hmN : m ≤ N := le_trans hm2 hhiN
      have hdm : |ts m - target| < maxSafeInt := hbdd m hm0 hmN
      rcases lt_trichotomy (ts m) target with hc | hc | hc
      · -- ts m < target : recurse right on [m+1, hi]
        rw [evmGoT_lt_case ts target f lo hi closest cdiff hle (hm ▸ hc), ← hm]
        by_cases hup : |ts m - target| < cdiff
        · simp only [if_pos hup]
          obtain ⟨r, ps, hrun, hr0, hrN, hglob, l₁, l₂, hPP, hfirst⟩ :=
            ih (m + 1) hi m (|ts m - target|) (P ++ [m])
              (by omega) (by omega) hhiN (by omega)
              (by
                intro j hj0 hjm
                rcases eq_or_lt_of_le (show j ≤ m from by omega) with h | h
                · rw [h]; exact hc
                · exact lt_trans (hmono j m hj0 h hmN) hc)
              hright
              (by
                intro p hp
                rcases List.mem_append.mp hp with hpP | hpm
                · exact ⟨(hPmem p hpP).1, (hPmem p hpP).2.1,
                    le_trans (le_of_lt hup) (hPmem p hpP).2.2⟩
                · rw [List.mem_singleton.mp hpm]
                  exact ⟨⟨hm0, hmN⟩, hc.ne, le_refl _⟩)
              (Or.inr ⟨P, [], rfl, rfl,
                fun p hp => lt_of_lt_of_le hup (hPmem p hp).2.2⟩)
              (Or.inr (by simp))
              (by
                intro _
                rw [show m + 1 - 1 = m from by omega]
                exact List.mem_append_right P (List.mem_singleton.mpr rfl))
              (fun h => List.mem_append_left [m] (hlinkR h))
          rw [hrun]
          refine ⟨r, m :: ps, rfl, hr0, hrN, hglob, l₁, l₂, ?_, hfirst⟩
          rw [List.append_assoc] at hPP
          exact hPP
        · simp only [if_neg hup]
          rcases hclosest with ⟨hP0, hcl0, hcdM⟩ | ⟨l₁', l₂', hP, hcd, hfirst'⟩
          · rw [hcdM] at hup
            exact absurd hdm hup
          · obtain ⟨r, ps, hrun, hr0, hrN, hglob, l₁, l₂, hPP, hfirst⟩ :=
              ih (m + 1) hi closest cdiff (P ++ [m])
                (by omega) (by omega) hhiN (by omega)
                (by
                  intro j hj0 hjm
                  rcases eq_or_lt_of_le (show j ≤ m from by omega) with h | h
                  · rw [h]; exact hc
                  · exact lt_trans (hmono j m hj0 h hmN) hc)
                hright
                (by
                  intro p hp
                  rcases List.mem_append.mp hp with hpP | hpm
                  · exact hPmem p hpP
                  · rw [List.mem_singleton.mp hpm]
                    exact ⟨⟨hm0, hmN⟩, hc.ne, not_lt.mp hup⟩)
                (Or.inr ⟨l₁', l₂' ++ [m], by rw [hP, List.append_assoc, List.cons_append], hcd, hfirst'⟩)
                (Or.inr (by simp))
                (by
                  intro _
                  rw [show m + 1 - 1 = m from by omega]
                  exact List.mem_append_right P (List.mem_singleton.mpr rfl))
                (fun h => List.mem_append_left [m] (hlinkR h))
            rw [hrun]
            refine ⟨r, m :: ps, rfl, hr0, hrN, hglob, l₁, l₂, ?_, hfirst⟩
            rw [List.append_assoc] at hPP
            exact hPP
      · -- exact hit
        rw [evmGoT_eq_case ts target f lo hi closest cdiff hle hc]
        refine ⟨m, [m], rfl, hm0, hmN, ?_, P, [], rfl, ?_⟩
        · intro j _ _
          rw [hc]
          simp only [sub_self, abs_zero]
          exact abs_nonneg (ts j - target)
        · intro p hp
          have h1 := (hPmem p hp).2.1
          have h2 : (0 : Int) < |ts p - target| := by
            rw [abs_pos]
            intro hz
            exact h1 (by omega)
          rw [hc]
          simpa using h2
      · -- target < ts m : recurse left on [lo, m-1]
        rw [evmGoT_gt_case ts target f lo hi closest cdiff hle (hm ▸ hc), ← hm]
        by_cases hup : |ts m - target| < cdiff
        · simp only [if_pos hup]
          obtain ⟨r, ps, hrun, hr0, hrN, hglob, l₁, l₂, hPP, hfirst⟩ :=
            ih lo (m - 1) m (|ts m - target|) (P ++ [m])
              (by omega) hlo (by omega) (by omega)
              hleft
              (by
                intro j hjm hjN
                rcases eq_or_lt_of_le (show m ≤ j from by omega) with h | h
                · rw [← h]; exact hc
                · exact lt_trans hc (hmono m j hm0 h hjN))
              (by
                intro p hp
                rcases List.mem_append.mp hp with hpP | hpm
                · exact ⟨(hPmem p hpP).1, (hPmem p hpP).2.1,
                    le_trans (le_of_lt hup) (hPmem p hpP).2.2⟩
                · rw [List.mem_singleton.mp hpm]
                  exact ⟨⟨hm0, hmN⟩, hc.ne', le_refl _⟩)
              (Or.inr ⟨P, [], rfl, rfl,
                fun p hp => lt_of_lt_of_le hup (hPmem p hp).2.2⟩)
              (Or.inr (by simp))
              (fun h => List.mem_append_left [m] (hlinkL h))
              (by
                intro _
                rw [show m - 1 + 1 = m from by omega]
                exact List.mem_append_right P (List.mem_singleton.mpr rfl))
          rw [hrun]
          refine ⟨r, m :: ps, rfl, hr0, hrN, hglob, l₁, l₂, ?_, hfirst⟩
          rw [List.append_assoc] at hPP
          exact hPP
        · simp only [if_neg hup]
          rcases hclosest with ⟨hP0, hcl0, hcdM⟩ | ⟨l₁', l₂', hP, hcd, hfirst'⟩
          · rw [hcdM] at hup
            exact absurd hdm hup
          · obtain ⟨r, ps, hrun, hr0, hrN, hglob, l₁, l₂, hPP, hfirst⟩ :=
              ih lo (m - 1) closest cdiff (P ++ [m])
                (by omega) hlo (by omega) (by omega)
                hleft
                (by
                  intro j hjm hjN
                  rcases eq_or_lt_of_le (show m ≤ j from by omega) with h | h
                  · rw [← h]; exact hc
                  · exact lt_trans hc (hmono m j hm0 h hjN))
                (by
                  intro p hp
                  rcases List.mem_append.mp hp with hpP | hpm
                  · exact hPmem p hpP
                  · rw [List.mem_singleton.mp hpm]
                    exact ⟨⟨hm0, hmN⟩, hc.ne', not_lt.mp hup⟩)
                (Or.inr ⟨l₁', l₂' ++ [m], by rw [hP, List.append_assoc, List.cons_append], hcd, hfirst'⟩)
                (Or.inr (by simp))
                (fun h => List.mem_append_left [m] (hlinkL h))
                (by
                  intro _
                  rw [show m - 1 + 1 = m from by omega]
                  exact List.mem_append_right P (List.mem_singleton.mpr rfl))
            rw [hrun]
            refine ⟨r, m :: ps, rfl, hr0, hrN, hglob, l₁, l₂, ?_, hfirst⟩
            rw [List.append_assoc] at hPP
            exact hPP
    · -- loop exit: lo = hi + 1
      rw [evmGoT_exit ts target f lo hi closest cdiff hle]
      have hPne : P ≠ [] := by
        rcases hne with h | h
        · exact absurd h hle
        · exact h
      rcases hclosest with ⟨hP0, _, _⟩ | ⟨l₁, l₂, hP, hcd, hfirst⟩
      · exact absurd hP0 hPne
      · have hcmem : closest ∈ P := by
          rw [hP]
          exact List.mem_append_right l₁ (List.mem_cons_self closest l₂)
        have hcb := (hPmem closest hcmem).1
        have hexit : lo = hi + 1 := by omega
        refine ⟨closest, [], rfl, hcb.1, hcb.2, ?_, l₁, l₂, by rw [List.append_nil]; exact hP, ?_⟩
        · -- global minimality over [0, N]
          intro j hj0 hjN
          rcases le_or_lt j hi with hjhi | hjlo
          · -- j on the low side: compare with the probe at hi
            have hhi0 : 0 ≤ hi := le_trans hj0 hjhi
            have hhiP : hi ∈ P := by
              have := hlinkL (by omega)
              rwa [show lo - 1 = hi from by omega] at this
            have hb := (hPmem hi hhiP).2.2
            have h1 : ts hi < target := hleft hi hhi0 (by omega)
            have h2 : ts j ≤ ts hi := by
              rcases eq_or_lt_of_le hjhi with h | h
              · rw [h]
              · exact le_of_lt (hmono j hi hj0 h hhiN)
            rw [hcd] at hb
            simp only [Int.abs_eq_natAbs] at hb ⊢
            omega
          · -- j on the high side: compare with the probe at lo
            have hloj : lo ≤ j := by omega
            have hloN : lo ≤ N := le_trans hloj hjN
            have hloP : lo ∈ P := by
              have := hlinkR (by omega)
              rwa [show hi + 1 = lo from by omega] at this
            have hb := (hPmem lo hloP).2.2
            have h1 : target < ts lo := hright lo (by omega) hloN
            have h2 : ts lo ≤ ts j := by
              rcases eq_or_lt_of_le hloj with h | h
              · rw [h]
              · exact le_of_lt (hmono lo j hlo h hjN)
            rw [hcd] at hb
            simp only [Int.abs_eq_natAbs] at hb ⊢
            omega
        · exact hfirst

/-- Claim C1: for a strictly increasing index-to-timestamp function on
`[0, N]` (with differences inside the safe-integer range),
`getEVMBlockByTimestamp(target)` returns an index `r` in range such that
no index in `[0, N]` has a strictly smaller absolute difference to the
target; among the probed indices, `r` is the first one probed that
achieves the minimal difference (every earlier probe is strictly worse);
and if some index's timestamp equals the target exactly, that index is
the one returned. -/
theorem getEVMBlockByTimestamp_closest (ts : Int → Int) (N target : Int)
    (hN : 0 ≤ N)
    (hmono : ∀ i j : Int, 0 ≤ i → i < j → j ≤ N → ts i < ts j)
    (hbdd : ∀ j : Int, 0 ≤ j → j ≤ N → |ts j - target| < maxSafeInt) :
    ∃ r probes, evmGoT ts target (N + 2).toNat 0 N 0 maxSafeInt = some (r, probes) ∧
      getEVMBlockByTimestamp ts N target = some r ∧
      0 ≤ r ∧ r ≤ N ∧
      (∀ j : Int, 0 ≤ j → j ≤ N → |ts r - target| ≤ |ts j - target|) ∧
      (∃ l₁ l₂, probes = l₁ ++ r :: l₂ ∧ ∀ p ∈ l₁, |ts r - target| < |ts p - target|) ∧
      (∀ j : Int, 0 ≤ j → j ≤ N → ts j = target → r = j) := by
  obtain ⟨r, ps, hrun, hr0, hrN, hglob, l₁, l₂, hPP, hfirst⟩ :=
    evmGoT_correct ts target N hmono hbdd (N + 2).toNat 0 N 0 maxSafeInt []
      (by omega) (le_refl 0) (le_refl N) (by omega)
      (by intro j hj0 hj; omega)
      (by intro j hj hjN; omega)
      (by intro p hp; exact absurd hp (List.not_mem_nil p))
      (Or.inl ⟨rfl, rfl, rfl⟩)
      (Or.inl hN)
      (by intro h; omega)
      (by intro h; omega)
  rw [List.nil_append] at hPP
  refine ⟨r, ps, hrun, ?_, hr0, hrN, hglob, ⟨l₁, l₂, hPP, hfirst⟩, ?_⟩
  · unfold getEVMBlockByTimestamp
    rw [hrun]
    rfl
  · intro j hj0 hjN hjt
    have h0 := hglob j hj0 hjN
    rw [hjt] at h0
    simp only [sub_self, abs_zero] at h0
    have hrt : ts r = target := by
      have := abs_nonneg (ts r - target)
      have h2 : |ts r - target| = 0 := le_antisymm h0 this
      have h3 := abs_eq_zero.mp h2
      omega
    by_contra hne
    rcases lt_or_gt_of_ne hne with h | h
    · have := hmono r j hr0 h hjN
      omega
    · have := hmono j r hj0 h hrN
      omega

/-- Witness for C1: `ts i = 10 i` on `[0, 3]`, target 14; block 1
(timestamp 10, difference 4) is the unique closest index. -/
theorem getEVMBlockByTimestamp_closest_witness :
    getEVMBlockByTimestamp (fun i => 10 * i) 3 14 = some 1 := by
  obtain ⟨r, probes, _, hres, hr0, hrN, hglob, _, _⟩ :=
    getEVMBlockByTimestamp_closest (fun i => 10 * i) 3 14 (by omega)
      (by intro i j h1 h2 h3; show 10 * i < 10 * j; omega)
      (by
        intro j h1 h2
        show |10 * j - 14| < maxSafeInt
        rw [show maxSafeInt = 9007199254740991 from rfl]
        simp only [Int.abs_eq_natAbs]
        omega)
  have h1 := hglob 1 (by omega) (by omega)
  have hr : r = 1 := by
    show r = 1
    have : |10 * r - 14| ≤ |10 * 1 - 14| := h1
    simp only [Int.abs_eq_natAbs] at this
    omega
  rw [hres, hr]

/-- Claim C9: the binary search of `getEVMBlockByTimestamp` terminates
for every target (the fuel `latest + 2`, an over-approximation of the
strictly shrinking window, is never exhausted, so a result is always
produced), and for a target outside the chain's actual timestamp range
the boundary-closest index is returned (0 below range, `latest` above
range, under the monotone model) rather than an error. -/
theorem getEVMBlockByTimestamp_terminates (ts : Int → Int) (N target : Int) (hN : 0 ≤ N) :
    (∃ r : Int, getEVMBlockByTimestamp ts N target = some r) ∧
    ((∀ i j : Int, 0 ≤ i → i < j → j ≤ N → ts i < ts j) →
      (∀ j : Int, 0 ≤ j → j ≤ N → |ts j - target| < maxSafeInt) →
      ((target < ts 0 → getEVMBlockByTimestamp ts N target = some 0) ∧
        (ts N < target → getEVMBlockByTimestamp ts N target = some N))) := by
  constructor
  · obtain ⟨out, hout⟩ := evmGoT_total ts target (N + 2).toNat 0 N 0 maxSafeInt (by omega)
    exact ⟨out.1, by unfold getEVMBlockByTimestamp; rw [hout]; rfl⟩
  · intro hmono hbdd
    obtain ⟨r, ps, hrun, hr0, hrN, hglob, l₁, l₂, hPP, hfirst⟩ :=
      evmGoT_correct ts target N hmono hbdd (N + 2).toNat 0 N 0 maxSafeInt []
        (by omega) (le_refl 0) (le_refl N) (by omega)
        (by intro j hj0 hj; omega)
        (by intro j hj hjN; omega)
        (by intro p hp; exact absurd hp (List.not_mem_nil p))
        (Or.inl ⟨rfl, rfl, rfl⟩)
        (Or.inl hN)
        (by intro h; omega)
        (by intro h; omega)
    have hres : getEVMBlockByTimestamp ts N target = some r := by
      unfold getEVMBlockByTimestamp
      rw [hrun]
      rfl
    constructor
    · intro hlow
      have h0 := hglob 0 (le_refl 0) hN
      have hr : r = 0 := by
        by_contra hne
        have hpos : 0 < r := lt_of_le_of_ne hr0 (Ne.symm hne)
        have hmono0 := hmono 0 r (le_refl 0) hpos hrN
        simp only [Int.abs_eq_natAbs] at h0
        omega
      rw [hres, hr]
    · intro hhigh
      have h0 := hglob N hN (le_refl N)
      have hr : r = N := by
        by_contra hne
        have hlt : r < N := lt_of_le_of_ne hrN hne
        have hmonoN := hmono r N hr0 hlt (le_refl N)
        simp only [Int.abs_eq_natAbs] at h0
        omega
      rw [hres, hr]

/-- Witness for C9: `ts i = 10 i` on `[0, 3]`; target −7 is below range
and resolves to block 0, target 999 is above range and resolves to 3. -/
theorem getEVMBlockByTimestamp_terminates_witness :
    getEVMBlockByTimestamp (fun i => 10 * i) 3 (-7) = some 0 ∧
    getEVMBlockByTimestamp (fun i => 10 * i) 3 999 = some 3 := by
  have hmono : ∀ i j : Int, 0 ≤ i → i < j → j ≤ 3 → (fun i : Int => 10 * i) i < (fun i : Int => 10 * i) j := by
    intro i j h1 h2 h3
    show 10 * i < 10 * j
    omega
  constructor
  · have h := ((getEVMBlockByTimestamp_terminates (fun i => 10 * i) 3 (-7) (by omega)).2
      hmono
      (by
        intro j h1 h2
        show |10 * j - (-7)| < maxSafeInt
        rw [show maxSafeInt = 9007199254740991 from rfl]
        simp only [Int.abs_eq_natAbs]
        omega)).1
    exact h (by show (-7 : Int) < 10 * 0; omega)
  · have h := ((getEVMBlockByTimestamp_terminates (fun i => 10 * i) 3 999 (by omega)).2
      hmono
      (by
        intro j h1 h2
        show |10 * j - 999| < maxSafeInt
        rw [show maxSafeInt = 9007199254740991 from rfl]
        simp only [Int.abs_eq_natAbs]
        omega)).2
    exact h (by show 10 * 3 < (999 : Int); omega)

/-- `MAX_SEARCH_OFFSET` (block-fetcher.ts:8). -/
def MAX_SEARCH_OFFSET : Nat := 100

/-- `TIME_DIFFERENCE_THRESHOLD` in seconds (block-fetcher.ts:9). -/
def TIME_DIFFERENCE_THRESHOLD : Int := 60

/-- Loop body of `refineSlotSearchSolana` (block-fetcher.ts:221-240),
structurally recursing on the remaining offsets (`r = MAX_SEARCH_OFFSET -
offset + 1`).  Each iteration probes `start + offset` and then
`start - offset` through the slot-time oracle `st`; a `none` from either
probe is `getCachedSlotTime` throwing (after its retries), which the
source does not catch, so it propagates as `none` for the whole
refinement.  Updates keep the strictly closer probe; the loop breaks once
the best difference is at most `TIME_DIFFERENCE_THRESHOLD`.  Returns the
final `(closestSlot, closestTimeDifference)` pair. -/
def refineAux (st : Int → Option Int) (start target : Int) :
    Nat → Int → Int → Int → Option (Int × Int)
  | 0, _, closest, cdiff => some (closest, cdiff)
  | r + 1, offset, closest, cdiff =>
    match st (start + offset) with
    | none => none
    | some ft =>
      let fd := |ft - target|
      let c1 := if fd < cdiff then start + offset else closest
      let d1 := if fd < cdiff then fd else cdiff
      match st (start - offset) with
      | none => none
      | some bt =>
        let bd := |bt - target|
        let c2 := if bd < d1 then start - offset else c1
        let d2 := if bd < d1 then bd else d1
        if d2 ≤ TIME_DIFFERENCE_THRESHOLD then some (c2, d2)
        else refineAux st start target r (offset + 1) c2 d2

/-- `refineSlotSearchSolana(initialSlot, targetTimestamp)`
(block-fetcher.ts:212-243): seed the best candidate with the initial
slot's own difference (a failing seed lookup also propagates), then walk
offsets `1..MAX_SEARCH_OFFSET`. -/
def refineSlotSearchSolana (st : Int → Option Int) (initialSlot targetTimestamp : Int) :
    Option Int :=
  match st initialSlot with
  | none => none
  | some t0 =>
    (refineAux st initialSlot targetTimestamp MAX_SEARCH_OFFSET 1 initialSlot
      (|t0 - targetTimestamp|)).map (fun cd => cd.1)

/-- The binary-search loop of `getSolanaBlockByTimestamp`
(block-fetcher.ts:189-208), like `evmGoT` but over the fallible
slot-time oracle (a failed probe propagates) and falling through to
`refineSlotSearchSolana` at loop exit. -/
def solGo (st : Int → Option Int) (target : Int) : Nat → Int → Int → Int → Int → Option Int
  | 0, _, _, _, _ => none
  | fuel + 1, lo, hi, closest, cdiff =>
    if lo ≤ hi then
      match st ((lo + hi) / 2) with
      | none => none
      | some t =>
        let mid := (lo + hi) / 2
        let d := |t - target|
        let c' := if d < cdiff then mid else closest
        let d' := if d < cdiff then d else cdiff
        if t = target then some mid
        else if t < target then solGo st target fuel (mid + 1) hi c' d'
        else solGo st target fuel lo (mid - 1) c' d'
    else refineSlotSearchSolana st closest target

/-- `getSolanaBlockByTimestamp(timestamp)` (block-fetcher.ts:176-209):
fetch the genesis slot time, return slot 0 immediately when the target is
at or before it, otherwise binary-search `[0, latest]` and refine. -/
def getSolanaBlockByTimestamp (st : Int → Option Int) (latest target : Int) : Option Int :=
  match st 0 with
  | none => none
  | some g =>
    if target ≤ g then some 0
    else solGo st target (latest + 2).toNat 0 latest 0 maxSafeInt

/-- Claim C7: for every target at or before the genesis record's
timestamp, `getSolanaBlockByTimestamp` returns slot 0 immediately: the
result is `some 0` for every slot-time oracle agreeing at slot 0, in
particular oracles for which any binary-search or refinement probe would
fail, so no search and no refinement contribute to the result. -/
theorem getSolanaBlockByTimestamp_genesis (st : Int → Option Int) (latest target g : Int)
    (h0 : st 0 = some g) (hle : target ≤ g) :
    getSolanaBlockByTimestamp st latest target = some 0 := by
  unfold getSolanaBlockByTimestamp
  rw [h0]
  simp [hle]

/-- Witness for C7: genesis at time 500, target 400, every other slot
lookup failing. -/
theorem getSolanaBlockByTimestamp_genesis_witness :
    getSolanaBlockByTimestamp (fun i => if i = 0 then some 500 else none) 100 400 = some 0 :=
  getSolanaBlockByTimestamp_genesis (fun i => if i = 0 then some 500 else none) 100 400 500
    rfl (by omega)

/-- Counterexample to claim C2 as stated: with slot 0 having timestamp
1000 and every other slot lookup failing (NotFound), refining from slot 0
towards target 2000 does not return a best index at all — the very first
forward probe (slot 1) fails and the failure propagates out of
`refineSlotSearchSolana` (the source has no try/catch in the refinement
loop), aborting the whole refinement. -/
theorem refine_probe_failure_cex :
    refineSlotSearchSolana (fun i => if i = 0 then some 1000 else none) 0 2000 = none := by
  rfl

lemma refineAux_fwd_none (st : Int → Option Int) (start target : Int) (r : Nat)
    (offset closest cdiff : Int) (hfail : st (start + offset) = none) :
    refineAux st start target (r + 1) offset closest cdiff = none := by
  rw [refineAux.eq_def]
  simp only [hfail]

/-- Claim C2 as amended: a probe that fails does abort the whole
refinement — if the lookup of `start + 1` (the first probe of the loop)
fails, `refineSlotSearchSolana` propagates the failure instead of
treating it as "no improvement", whatever the seed lookup returned. -/
theorem refineSlotSearchSolana_probe_failure_aborts (st : Int → Option Int)
    (start target : Int) (hfail : st (start + 1) = none) :
    refineSlotSearchSolana st start target = none := by
  unfold refineSlotSearchSolana
  cases hstart : st start with
  | none => rfl
  | some t0 =>
    show Option.map (fun cd => cd.1)
      (refineAux st start target MAX_SEARCH_OFFSET 1 start (|t0 - target|)) = none
    rw [show MAX_SEARCH_OFFSET = 99 + 1 from rfl,
      refineAux_fwd_none st start target 99 1 start (|t0 - target|) hfail]
    rfl

/-- Witness for the amended C2. -/
theorem refineSlotSearchSolana_probe_failure_aborts_witness :
    refineSlotSearchSolana (fun i => if i = 5 then some 0 else none) 5 0 = none :=
  refineSlotSearchSolana_probe_failure_aborts (fun i => if i = 5 then some 0 else none) 5 0
    (by rfl)

/-- One unfolding of the refinement loop over a total oracle, with the
lets expanded (proved by reduction). -/
lemma refine_step_core (ts : Int → Int) (start target : Int) (r : Nat)
    (offset closest cdiff : Int) :
    refineAux (fun i => some (ts i)) start target (r + 1) offset closest cdiff =
      (if (if |ts (start - offset) - target| <
              (if |ts (start + offset) - target| < cdiff then |ts (start + offset) - target|
                else cdiff)
            then |ts (start - offset) - target|
            else if |ts (start + offset) - target| < cdiff then |ts (start + offset) - target|
              else cdiff) ≤ TIME_DIFFERENCE_THRESHOLD
        then some
          ((if |ts (start - offset) - target| <
              (if |ts (start + offset) - target| < cdiff then |ts (start + offset) - target|
                else cdiff)
            then start - offset
            else if |ts (start + offset) - target| < cdiff then start + offset else closest),
           (if |ts (start - offset) - target| <
              (if |ts (start + offset) - target| < cdiff then |ts (start + offset) - target|
                else cdiff)
            then |ts (start - offset) - target|
            else if |ts (start + offset) - target| < cdiff then |ts (start + offset) - target|
              else cdiff))
        else refineAux (fun i => some (ts i)) start target r (offset + 1)
          (if |ts (start - offset) - target| <
              (if |ts (start + offset) - target| < cdiff then |ts (start + offset) - target|
                else cdiff)
            then start - offset
            else if |ts (start + offset) - target| < cdiff then start + offset else closest)
          (if |ts (start - offset) - target| <
              (if |ts (start + offset) - target| < cdiff then |ts (start + offset) - target|
                else cdiff)
            then |ts (start - offset) - target|
            else if |ts (start + offset) - target| < cdiff then |ts (start + offset) - target|
              else cdiff)) := rfl

/-- Shared continuation of one refinement iteration: once the update to
`(c2, d2)` is known to keep the invariant, the early-stop test and the
recursive call both preserve it. -/
lemma refine_cont (ts : Int → Int) (start target : Int) (r : Nat) (offset cdiff c2 d2 : Int)
    (ih : ∀ (offset closest cdiff : Int), cdiff = |ts closest - target| →
      (∀ k : Int, |k - start| < offset → cdiff ≤ |ts k - target|) →
      ∃ c d, refineAux (fun i => some (ts i)) start target r offset closest cdiff = some (c, d) ∧
        d = |ts c - target| ∧ d ≤ cdiff ∧
        (d ≤ TIME_DIFFERENCE_THRESHOLD ∨
          ∀ k : Int, |k - start| < offset + r → d ≤ |ts k - target|))
    (hd2 : d2 = |ts c2 - target|)
    (hcd : d2 ≤ cdiff)
    (hfd : d2 ≤ |ts (start + offset) - target|)
    (hbd : d2 ≤ |ts (start - offset) - target|)
    (hwin : ∀ k : Int, |k - start| < offset → cdiff ≤ |ts k - target|) :
    ∃ c d, (if d2 ≤ TIME_DIFFERENCE_THRESHOLD then some (c2, d2)
        else refineAux (fun i => some (ts i)) start target r (offset + 1) c2 d2) = some (c, d) ∧
      d = |ts c - target| ∧ d ≤ cdiff ∧
      (d ≤ TIME_DIFFERENCE_THRESHOLD ∨
        ∀ k : Int, |k - start| < offset + (r + 1) → d ≤ |ts k - target|) := by
  by_cases hstop : d2 ≤ TIME_DIFFERENCE_THRESHOLD
  · rw [if_pos hstop]
    exact ⟨c2, d2, rfl, hd2, hcd, Or.inl hstop⟩
  · rw [if_neg hstop]
    obtain ⟨c, d, hrun, hd, hdle, hor⟩ := ih (offset + 1) c2 d2 hd2
      (by
        intro k hk
        by_cases hk1 : k = start + offset
        · rw [hk1]; exact hfd
        · by_cases hk2 : k = start - offset
          · rw [hk2]; exact hbd
          · have hlt : |k - start| < offset := by
              simp only [Int.abs_eq_natAbs] at hk ⊢
              omega
            exact le_trans hcd (hwin k hlt))
    refine ⟨c, d, hrun, hd, le_trans hdle hcd, ?_⟩
    rcases hor with h | h
    · exact Or.inl h
    · refine Or.inr ?_
      intro k hk
      refine h k ?_
      simp only [Int.abs_eq_natAbs] at hk ⊢
      omega

lemma refineAux_total_correct (ts : Int → Int) (start target : Int) :
    ∀ (r : Nat) (offset closest cdiff : Int),
    cdiff = |ts closest - target| →
    (∀ k : Int, |k - start| < offset → cdiff ≤ |ts k - target|) →
    ∃ c d, refineAux (fun i => some (ts i)) start target r offset closest cdiff = some (c, d) ∧
      d = |ts c - target| ∧ d ≤ cdiff ∧
      (d ≤ TIME_DIFFERENCE_THRESHOLD ∨
        ∀ k : Int, |k - start| < offset + r → d ≤ |ts k - target|) := by
  intro r
  induction r with
  | zero =>
    intro offset closest cdiff hinv hwin
    refine ⟨closest, cdiff, by rw [refineAux], hinv, le_refl _, Or.inr ?_⟩
    intro k hk
    refine hwin k ?_
    simp only [Int.abs_eq_natAbs] at hk ⊢
    omega
  | succ r ih =>
    intro offset closest cdiff hinv hwin
    rw [refine_step_core ts start target r offset closest cdiff]
    by_cases h1 : |ts (start + offset) - target| < cdiff
    · simp only [if_pos h1]
      by_cases h2 : |ts (start - offset) - target| < |ts (start + offset) - target|
      · simp only [if_pos h2]
        exact refine_cont ts start target r offset cdiff (start - offset)
          (|ts (start - offset) - target|) ih rfl (by omega) (by omega) (le_refl _) hwin
      · simp only [if_neg h2]
        exact refine_cont ts start target r offset cdiff (start + offset)
          (|ts (start + offset) - target|) ih rfl (by omega) (le_refl _) (by omega) hwin
    · simp only [if_neg h1]
      by_cases h2 : |ts (start - offset) - target| < cdiff
      · simp only [if_pos h2]
        exact refine_cont ts start target r offset cdiff (start - offset)
          (|ts (start - offset) - target|) ih rfl (by omega) (by omega) (le_refl _) hwin
      · simp only [if_neg h2]
        exact refine_cont ts start target r offset cdiff closest cdiff ih hinv
          (le_refl _) (by omega) (by omega) hwin

/-- Claim C3: over a total slot-time oracle, refinement always returns a
slot whose absolute difference to the target is at most the seed's
difference; moreover either it stopped at a difference within the
60-second threshold, or it exhausted offsets `1..100` and the result is
minimal over the whole probed window `[start - 100, start + 100]`. -/
theorem refineSlotSearchSolana_improves (ts : Int → Int) (start target : Int) :
    ∃ r : Int, refineSlotSearchSolana (fun i => some (ts i)) start target = some r ∧
      |ts r - target| ≤ |ts start - target| ∧
      (|ts r - target| ≤ TIME_DIFFERENCE_THRESHOLD ∨
        ∀ k : Int, |k - start| ≤ (MAX_SEARCH_OFFSET : Int) → |ts r - target| ≤ |ts k - target|) := by
  obtain ⟨c, d, hrun, hd, hdle, hor⟩ := refineAux_total_correct ts start target
    MAX_SEARCH_OFFSET 1 start (|ts start - target|) rfl
    (by
      intro k hk
      have hks : k = start := by
        simp only [Int.abs_eq_natAbs] at hk
        omega
      rw [hks])
  refine ⟨c, ?_, ?_, ?_⟩
  · show (refineAux (fun i => some (ts i)) start target MAX_SEARCH_OFFSET 1 start
      (|ts start - target|)).map (fun cd => cd.1) = some c
    rw [hrun]
    rfl
  · rw [← hd]
    exact hdle
  · rcases hor with h | h
    · exact Or.inl (by rw [← hd]; exact h)
    · refine Or.inr ?_
      intro k hk
      rw [← hd]
      refine h k ?_
      simp only [Int.abs_eq_natAbs] at hk ⊢
      rw [show (MAX_SEARCH_OFFSET : Int) = 100 from rfl] at hk
      rw [show ((1 : Int) + (MAX_SEARCH_OFFSET : Nat)) = 101 from rfl]
      omega

/-- Witness for C3 at a constant oracle. -/
theorem refineSlotSearchSolana_improves_witness :
    ∃ r : Int, refineSlotSearchSolana (fun i => some ((fun _ : Int => (0 : Int)) i)) 0 7 =
      some r := by
  obtain ⟨r, hr, _⟩ := refineSlotSearchSolana_improves (fun _ : Int => (0 : Int)) 0 7
  exact ⟨r, hr⟩

/-- `getTimestampBySlot(slot)` (block-fetcher.ts:253-261): fetch the
latest slot, fail fast with an out-of-range error when `slot < 0` or
`slot > latestSlot`, otherwise look the slot time up through the cached
(retried) lookup, whose own failure surfaces wrapped by the retry
executor. -/
def getTimestampBySlot (latestSlot : Int) (st : Int → Option Int) (slot : Int) :
    Except String Int :=
  if slot < 0 ∨ latestSlot < slot then
    .error ("Slot " ++ toString slot ++ " is out of range. Latest slot is " ++
      toString latestSlot ++ ".")
  else
    match st slot with
    | some t => .ok t
    | none => .error ("Max retries reached: Error: No timestamp found for slot " ++
        toString slot)

/-- Claim C5: for every slot with `slot < 0` or `slot > latestSlot`,
`getTimestampBySlot` fails with exactly the message
`"Slot <slot> is out of range. Latest slot is <latestSlot>."`, and it
does so before any slot-time lookup: the result is this error for every
slot-time oracle. -/
theorem getTimestampBySlot_out_of_range (slot latestSlot : Int)
    (h : slot < 0 ∨ latestSlot < slot) (st : Int → Option Int) :
    getTimestampBySlot latestSlot st slot =
      .error ("Slot " ++ toString slot ++ " is out of range. Latest slot is " ++
        toString latestSlot ++ ".") := by
  unfold getTimestampBySlot
  rw [if_pos h]

/-- Witness for C5: requesting slot 200000 when the latest slot is 100000
(the spec's end-to-end example), with an oracle that would even know the
slot. -/
theorem getTimestampBySlot_out_of_range_witness :
    getTimestampBySlot 100000 (fun _ => some 1) 200000 =
      .error "Slot 200000 is out of range. Latest slot is 100000." := by
  have h := getTimestampBySlot_out_of_range 200000 100000 (Or.inr (by omega))
    (fun _ => some 1)
  rw [h]
  rfl

/-- `String.prototype.split(sep)` for a one-character separator,
modelled over the character list: splitting the empty string yields
`[""]`, and each separator occurrence starts a new group. -/
def splitChars (sep : Char) : List Char → List (List Char)
  | [] => [[]]
  | c :: cs =>
    match splitChars sep cs with
    | [] => [[c]]
    | g :: gs => if c = sep then [] :: g :: gs else (c :: g) :: gs

/-- JS `s.split(sep)` for a one-character separator (api.ts:18). -/
def jsSplit (sep : Char) (s : String) : List String :=
  (splitChars sep s.data).map (fun l => String.mk l)

/-- JS `s.trim()` (api.ts:18): strip whitespace from both ends. -/
def jsTrim (s : String) : String :=
  String.mk (((s.data.dropWhile (fun c => c.isWhitespace)).reverse.dropWhile
    (fun c => c.isWhitespace)).reverse)

/-- JS truthiness of an optional string query parameter (api.ts:17,40):
`undefined` and the empty string are falsy. -/
def strTruthy : Option String → Bool
  | none => false
  | some s => !(s == "")

/-- `const chain = c.req.query("chain") || "evm"` (api.ts:14). -/
def chainOf : Option String → String
  | none => "evm"
  | some c => if c == "" then "evm" else c

/-- Lookup in the route-level cache `cache[chain][timestamp]`
(api.ts:9), modelled as an association list of
`(chain, timestamp, block)` triples with the most recent write first. -/
def rcLookup (rc : List (String × String × Int)) (chain t : String) : Option Int :=
  (rc.find? (fun e => e.1 == chain && e.2.1 == t)).map (fun e => e.2.2)

/-- `cache[chain][timestamp] = blockNumber` (api.ts:28-29). -/
def rcInsert (rc : List (String × String × Int)) (chain t : String) (b : Int) :
    List (String × String × Int) :=
  (chain, t, b) :: rc

/-- The truthy route-cache test `cache[chain] && cache[chain][timestamp]`
(api.ts:20): a cached block number counts only when present and nonzero
(`0` is falsy in JS, so a cached `0` falls through to a fresh
resolution). -/
def cachedTruthy (rc : List (String × String × Int)) (chain t : String) : Option Int :=
  match rcLookup rc chain t with
  | some v => if v == 0 then none else some v
  | none => none

/-- `results[key] = value` on the JS results object, modelled as an
association list with the most recent write first. -/
def setResult (rs : List (String × Option Int)) (k : String) (v : Option Int) :
    List (String × Option Int) :=
  (k, v) :: rs

/-- Lookup of a key in the results object. -/
def resLookup (rs : List (String × Option Int)) (k : String) : Option (Option Int) :=
  (rs.find? (fun e => e.1 == k)).map (fun e => e.2)

/-- The value a resolution outcome contributes to the results object:
the block number on success, `null` on failure (api.ts:30,36). -/
def resOpt (e : Except String Int) : Option Int :=
  match e with
  | .ok b => some b
  | .error _ => none

/-- The `for (const timestamp of timestamps)` loop of `handleApiRoute`
(api.ts:19-39): for each timestamp use the route cache when it holds a
truthy value, otherwise resolve it (`resolve t` is the outcome of
`get...BlockByTimestamp(Number(t))` for the selected chain), caching and
recording the block on success, and recording `null` on failure — the
failure is caught per item and the loop continues. -/
def processTimestamps (resolve : String → Except String Int) (chain : String) :
    List String → List (String × Option Int) → List (String × String × Int) →
    List (String × Option Int) × List (String × String × Int)
  | [], rs, rc => (rs, rc)
  | t :: ts, rs, rc =>
    match cachedTruthy rc chain t with
    | some v => processTimestamps resolve chain ts (setResult rs t (some v)) rc
    | none =>
      match resolve t with
      | .ok b => processTimestamps resolve chain ts (setResult rs t (some b))
          (rcInsert rc chain t b)
      | .error _ => processTimestamps resolve chain ts (setResult rs t none) rc

/-- The three response shapes `handleApiRoute` can produce:
`c.json(results)` (success), the 500 text response `Error: ...`, and the
400 `json({ error: ... })` for a request with neither parameter. -/
inductive ApiResponse where
  | json : List (String × Option Int) → ApiResponse
  | errorText : String → ApiResponse
  | badRequest : ApiResponse
deriving DecidableEq

/-- `handleApiRoute` (api.ts:11-59), over oracles for the four imported
resolvers and for JS `Number` coercion of a (trimmed) query string. -/
def handleApiRoute (evmByTs solByTs tsByBlock tsBySlot : Int → Except String Int)
    (toNum : String → Int)
    (timestampsParam blockNumberParam chainParam : Option String)
    (rc : List (String × String × Int)) :
    ApiResponse × List (String × String × Int) :=
  let chain := chainOf chainParam
  if strTruthy timestampsParam then
    let s := timestampsParam.getD ""
    let timestamps := (jsSplit ',' s).map jsTrim
    let out := processTimestamps
      (fun t => if chain == "solana" then solByTs (toNum t) else evmByTs (toNum t))
      chain timestamps [] rc
    (.json out.1, out.2)
  else if strTruthy blockNumberParam then
    let b := blockNumberParam.getD ""
    match (if chain == "solana" then tsBySlot (toNum b) else tsByBlock (toNum b)) with
    | .ok t => (.json [(b, some t)], rc)
    | .error e => (.errorText ("Error: " ++ e), rc)
  else (.badRequest, rc)

lemma resLookup_set_self (rs : List (String × Option Int)) (k : String) (v : Option Int) :
    resLookup (setResult rs k v) k = some v := by
  unfold resLookup setResult
  rw [List.find?]
  simp

lemma resLookup_set_ne (rs : List (String × Option Int)) (k k' : String) (v : Option Int)
    (h : k' ≠ k) : resLookup (setResult rs k' v) k = resLookup rs k := by
  unfold resLookup setResult
  rw [List.find?]
  rw [show ((k', v).1 == k) = false from by simp [h]]

lemma rcLookup_insert (rc : List (String × String × Int)) (chain chain' t t' : String)
    (b : Int) :
    rcLookup (rcInsert rc chain' t' b) chain t =
      if chain' = chain ∧ t' = t then some b else rcLookup rc chain t := by
  unfold rcLookup rcInsert
  rw [List.find?]
  by_cases h : chain' = chain ∧ t' = t
  · rw [show ((chain', t', b).1 == chain && (chain', t', b).2.1 == t) = true from by
      simp [h.1, h.2]]
    rw [if_pos h]
    rfl
  · rw [show ((chain', t', b).1 == chain && (chain', t', b).2.1 == t) = false from by
      rcases not_and_or.mp h with h1 | h1 <;> simp [h1]]
    rw [if_neg h]

lemma cachedTruthy_insert (rc : List (String × String × Int)) (chain chain' t t' : String)
    (b : Int) :
    cachedTruthy (rcInsert rc chain' t' b) chain t =
      if chain' = chain ∧ t' = t then (if b == 0 then none else some b)
      else cachedTruthy rc chain t := by
  unfold cachedTruthy
  rw [rcLookup_insert rc chain chain' t t' b]
  by_cases h : chain' = chain ∧ t' = t
  · rw [if_pos h, if_pos h]
  · rw [if_neg h, if_neg h]

/-- Recording one result keeps the per-key agreement with the resolver. -/
lemma setResult_inv (resolve : String → Except String Int) (rs : List (String × Option Int))
    (t0 : String) (w : Option Int) (hw : w = resOpt (resolve t0))
    (hrs : ∀ t v, resLookup rs t = some v → v = resOpt (resolve t)) :
    (resLookup (setResult rs t0 w) t0 = some (resOpt (resolve t0))) ∧
    (∀ t v, resLookup (setResult rs t0 w) t = some v → v = resOpt (resolve t)) ∧
    (∀ t, (resLookup rs t).isSome → (resLookup (setResult rs t0 w) t).isSome) := by
  refine ⟨by rw [resLookup_set_self, hw], ?_, ?_⟩
  · intro t v hv
    by_cases ht : t0 = t
    · rw [← ht] at hv ⊢
      rw [resLookup_set_self] at hv
      rw [← Option.some_inj.mp hv, hw]
    · rw [resLookup_set_ne rs t t0 w ht] at hv
      exact hrs t v hv
  · intro t ht
    by_cases h : t0 = t
    · rw [← h, resLookup_set_self]
      rfl
    · rw [resLookup_set_ne rs t t0 w h]
      exact ht

/-- Invariant induction over the batch loop: if every truthy route-cache
entry for the selected chain agrees with the resolver and every recorded
result agrees with the resolver, then after the loop every input
timestamp has a recorded result, and it is exactly the resolver's
outcome. -/
lemma processTimestamps_spec (resolve : String → Except String Int) (chain : String) :
    ∀ (inputs : List String) (rs : List (String × Option Int))
    (rc : List (String × String × Int)),
    (∀ t v, cachedTruthy rc chain t = some v → resolve t = .ok v) →
    (∀ t v, resLookup rs t = some v → v = resOpt (resolve t)) →
    (∀ t v, resLookup (processTimestamps resolve chain inputs rs rc).1 t = some v →
      v = resOpt (resolve t)) ∧
    (∀ t, t ∈ inputs →
      resLookup (processTimestamps resolve chain inputs rs rc).1 t = some (resOpt (resolve t))) ∧
    (∀ t, (resLookup rs t).isSome →
      (resLookup (processTimestamps resolve chain inputs rs rc).1 t).isSome) := by
  intro inputs
  induction inputs with
  | nil =>
    intro rs rc hrc hrs
    exact ⟨by rw [processTimestamps]; exact hrs,
      by intro t ht; exact absurd ht (List.not_mem_nil t),
      by intro t ht; rw [processTimestamps]; exact ht⟩
  | cons t0 ts ih =>
    intro rs rc hrc hrs
    have step :
        ∃ rs' rc', processTimestamps resolve chain (t0 :: ts) rs rc =
            processTimestamps resolve chain ts rs' rc' ∧
          resLookup rs' t0 = some (resOpt (resolve t0)) ∧
          (∀ t v, resLookup rs' t = some v → v = resOpt (resolve t)) ∧
          (∀ t v, cachedTruthy rc' chain t = some v → resolve t = .ok v) ∧
          (∀ t, (resLookup rs t).isSome → (resLookup rs' t).isSome) := by
      rw [processTimestamps]
      rcases hc : cachedTruthy rc chain t0 with _ | v
      · -- not (truthily) cached: resolve afresh
        rcases hr : resolve t0 with e | b
        · obtain ⟨g1, g2, g3⟩ := setResult_inv resolve rs t0 none (by rw [hr]; rfl) hrs
          rw [hr] at g1
          exact ⟨setResult rs t0 none, rc, rfl, g1, g2, hrc, g3⟩
        · obtain ⟨g1, g2, g3⟩ := setResult_inv resolve rs t0 (some b) (by rw [hr]; rfl) hrs
          rw [hr] at g1
          refine ⟨setResult rs t0 (some b), rcInsert rc chain t0 b, rfl, g1, g2, ?_, g3⟩
          intro t v hv
          rw [cachedTruthy_insert rc chain chain t t0 b] at hv
          by_cases h : chain = chain ∧ t0 = t
          · rw [if_pos h] at hv
            by_cases hb0 : b == 0
            · rw [if_pos hb0] at hv
              exact absurd hv (by simp)
            · rw [if_neg hb0] at hv
              rw [← h.2, hr, Option.some_inj.mp hv]
          · rw [if_neg h] at hv
            exact hrc t v hv
      · -- truthy cached value: it agrees with the resolver by invariant
        have hres : resolve t0 = .ok v := hrc t0 v hc
        obtain ⟨g1, g2, g3⟩ := setResult_inv resolve rs t0 (some v) (by rw [hres]; rfl) hrs
        exact ⟨setResult rs t0 (some v), rc, rfl, g1, g2, hrc, g3⟩
    obtain ⟨rs', rc', hstep, ht0, hrs', hrc', hpres⟩ := step
    rw [hstep]
    obtain ⟨g1, g2, g3⟩ := ih rs' rc' hrc' hrs'
    refine ⟨g1, ?_, fun t ht => g3 t (hpres t ht)⟩
    intro t ht
    rcases List.mem_cons.mp ht with h | h
    · rw [h]
      have hsome := g3 t0 (by rw [ht0]; rfl)
      rcases ho : resLookup (processTimestamps resolve chain ts rs' rc').1 t0 with _ | w
      · rw [ho] at hsome
        exact absurd hsome (by simp)
      · rw [g1 t0 w ho]
    · exact g2 t h

/-- Claim C8: a batch request (truthy `timestamps` parameter) always
yields a JSON success response with one entry per input timestamp — a
failing item contributes `null` for that item only while the others are
still resolved (starting from an empty route cache, each entry is exactly
the per-chain resolver's outcome for that timestamp) — whereas a failure
during a single block-identifier resolution aborts the whole request with
an error response wrapping the message. -/
theorem handleApiRoute_batch_isolation
    (evmByTs solByTs tsByBlock tsBySlot : Int → Except String Int) (toNum : String → Int)
    (chainParam : Option String) :
    (∀ (s : String) (bnParam : Option String), s ≠ "" →
      ∃ rs rc', handleApiRoute evmByTs solByTs tsByBlock tsBySlot toNum
          (some s) bnParam chainParam [] = (.json rs, rc') ∧
        ∀ t, t ∈ (jsSplit ',' s).map jsTrim →
          resLookup rs t = some (resOpt
            (if chainOf chainParam == "solana" then solByTs (toNum t)
              else evmByTs (toNum t)))) ∧
    (∀ (b : String) (e : String), b ≠ "" →
      (if chainOf chainParam == "solana" then tsBySlot (toNum b)
        else tsByBlock (toNum b)) = .error e →
      ∀ rc, handleApiRoute evmByTs solByTs tsByBlock tsBySlot toNum
        none (some b) chainParam rc = (.errorText ("Error: " ++ e), rc)) := by
  constructor
  · intro s bnParam hs
    have htruthy : strTruthy (some s) = true := by
      unfold strTruthy
      simp [hs]
    unfold handleApiRoute
    rw [htruthy]
    simp only [if_true]
    obtain ⟨g1, g2, g3⟩ := processTimestamps_spec
      (fun t => if chainOf chainParam == "solana" then solByTs (toNum t)
        else evmByTs (toNum t))
      (chainOf chainParam) ((jsSplit ',' s).map jsTrim) [] []
      (by intro t v h; exact absurd h (by unfold cachedTruthy rcLookup; simp [List.find?]))
      (by intro t v h; exact absurd h (by unfold resLookup; simp [List.find?]))
    exact ⟨_, _, rfl, g2⟩
  · intro b e hb herr rc
    have htruthy : strTruthy (some b) = true := by
      unfold strTruthy
      simp [hb]
    unfold handleApiRoute
    rw [show strTruthy none = false from rfl, htruthy]
    simp only [Bool.false_eq_true, if_false, if_true, Option.getD_some]
    rw [herr]

/-- Witness for C8: batch `"100,200"` where 100 resolves to block 7 and
200 fails, on the default (EVM) chain — both keys present, the failing
one `null`; and a single block-number request whose resolution fails
yields the 500-style error response. -/
theorem handleApiRoute_batch_isolation_witness :
    (∃ rs rc', handleApiRoute
        (fun n => if n == 100 then .ok 7 else .error "no block")
        (fun _ => .error "unused") (fun _ => .error "unused") (fun _ => .error "unused")
        (fun t => if t == "100" then 100 else 200)
        (some "100,200") none none [] = (.json rs, rc') ∧
      resLookup rs "100" = some (some 7) ∧ resLookup rs "200" = some none) ∧
    handleApiRoute
        (fun _ => .error "unused") (fun _ => .error "unused")
        (fun _ => .error "boom") (fun _ => .error "unused")
        (fun _ => 5) none (some "5") none [] = (.errorText "Error: boom", []) := by
  have h := handleApiRoute_batch_isolation
    (fun n => if n == 100 then .ok 7 else .error "no block")
    (fun _ => .error "unused") (fun _ => .error "unused") (fun _ => .error "unused")
    (fun t => if t == "100" then 100 else 200) none
  constructor
  · obtain ⟨rs, rc', hrun, hall⟩ := h.1 "100,200" none (by decide)
    refine ⟨rs, rc', hrun, ?_, ?_⟩
    · have hm := hall "100" (by
        rw [show (jsSplit ',' "100,200").map jsTrim = ["100", "200"] from by decide]
        exact List.mem_cons_self _ _)
      rw [hm]
      rfl
    · have hm := hall "200" (by
        rw [show (jsSplit ',' "100,200").map jsTrim = ["100", "200"] from by decide]
        exact List.mem_cons_of_mem _ (List.mem_cons_self _ _))
      rw [hm]
      rfl
  · have h2 := handleApiRoute_batch_isolation
      (fun _ => (.error "unused" : Except String Int)) (fun _ => .error "unused")
      (fun _ => .error "boom") (fun _ => .error "unused")
      (fun _ => (5 : Int)) none
    exact h2.2 "5" "boom" (by decide) (by rfl) []
